import Mathlib

/-!
Verification of the Orbit iOS automation scripts (`Automation/*.py`).

Each Python script is shallowly embedded as executable Lean definitions:
pure string transformations become Lean functions over `String` / `List Char`,
the filesystem and process effects become explicit action traces, fallible
steps (uncaught Python exceptions) become `Except String`.  External
collaborators (network, Jira, subprocesses) are modelled as explicit inputs
(token lists, tracker state, per-item outcome oracles).
-/

set_option maxRecDepth 40000

/-! ## Definitions: shallow embedding of the scripts -/

/-- Lexicographic strict comparison of character lists by code point,
matching Python string comparison. -/
def listLtb : List Char → List Char → Bool
  | _, [] => false
  | [], _ :: _ => true
  | a :: as, b :: bs =>
    if a.toNat < b.toNat then true
    else if b.toNat < a.toNat then false
    else listLtb as bs

/-- Python `s < t` on strings. -/
def strLtb (s t : String) : Bool := listLtb s.data t.data

/-- Python `s <= t` on strings (total order, so `¬ (t < s)`). -/
def strLeb (s t : String) : Bool := !(strLtb t s)

def insertSorted (le : α → α → Bool) (x : α) : List α → List α
  | [] => [x]
  | y :: l => if le x y then x :: y :: l else y :: insertSorted le x l

def sortPy (le : α → α → Bool) : List α → List α
  | [] => []
  | x :: l => insertSorted le x (sortPy le l)

def isUpperAZ (c : Char) : Bool := 65 ≤ c.toNat && c.toNat ≤ 90

def isLowerAZ (c : Char) : Bool := 97 ≤ c.toNat && c.toNat ≤ 122

/-- One attempted match of the regex `[A-Z](?:[a-z]+|[A-Z]*(?=[A-Z]|$))` at the
head of the input, returning the matched token and the remaining characters.
The first alternative `[a-z]+` (greedy) is tried first; the second consumes a
greedy run of upper-case letters, backtracking one character when the
lookahead `(?=[A-Z]|$)` fails at the end of the run. -/
def camelMatchAt : List Char → Option (List Char × List Char)
  | [] => none
  | c :: rest =>
    if isUpperAZ c then
      let lows := rest.takeWhile isLowerAZ
      if lows.length ≠ 0 then some (c :: lows, rest.drop lows.length)
      else
        let ups := rest.takeWhile isUpperAZ
        if ups.length ≠ 0 then
          if rest.drop ups.length = [] then some (c :: ups, [])
          else some (c :: ups.dropLast, rest.drop (ups.length - 1))
        else if rest = [] then some ([c], [])
        else none
    else none

/-- `re.findall` scan: attempt a match at each position, skipping one
character when no match starts there (fuel = remaining length). -/
def camelScanAux : Nat → List Char → List (List Char)
  | 0, _ => []
  | _ + 1, [] => []
  | fuel + 1, c :: rest =>
    match camelMatchAt (c :: rest) with
    | some (m, r) => m :: camelScanAux fuel r
    | none => camelScanAux fuel rest

/-- `camel_case_split` from `update_colors.py`:
`re.findall(r'[A-Z](?:[a-z]+|[A-Z]*(?=[A-Z]|$))', str)`. -/
def camel_case_split (s : String) : List String :=
  (camelScanAux s.data.length s.data).map String.mk

/-- `lowercase_first_letter` from `update_colors.py`:
`s[:1].lower() + s[1:]` (the `if str` guard tests the builtin `str`,
which is always truthy). -/
def lowercase_first_letter (s : String) : String :=
  match s.data with
  | [] => ""
  | c :: cs => String.mk (Char.toLower c :: cs)

/-- `re.findall(r'\d+', value)`: maximal runs of ASCII digits. -/
def digitRunsAux : Nat → List Char → List (List Char)
  | 0, _ => []
  | _ + 1, [] => []
  | fuel + 1, c :: rest =>
    if c.isDigit then
      (c :: rest.takeWhile Char.isDigit) ::
        digitRunsAux fuel (rest.drop (rest.takeWhile Char.isDigit).length)
    else digitRunsAux fuel rest

def findDigitRuns (s : String) : List String :=
  (digitRunsAux s.data.length s.data).map String.mk

/-- Decimal value of a digit string (Python `int`). -/
def natOfDigits (l : List Char) : Nat := l.foldl (fun a c => 10 * a + (c.toNat - 48)) 0

def hexDigitUpper (n : Nat) : Char := Char.ofNat (if n < 10 then 48 + n else 55 + n)

def hexDigitLower (n : Nat) : Char := Char.ofNat (if n < 10 then 48 + n else 87 + n)

def hexDigitsAux (dig : Nat → Char) : Nat → Nat → List Char
  | 0, _ => []
  | fuel + 1, n => if n < 16 then [dig n] else hexDigitsAux dig fuel (n / 16) ++ [dig (n % 16)]

def hexUpper (n : Nat) : List Char := hexDigitsAux hexDigitUpper (n + 1) n

def hexLower (n : Nat) : List Char := hexDigitsAux hexDigitLower (n + 1) n

/-- Python `zfill` / zero-padding to a minimum width. -/
def zfill (w : Nat) (l : List Char) : List Char := List.replicate (w - l.length) '0' ++ l

/-- `str_to_hexa` from `update_colors.py`:
`'{0:0{1}x}'.format(int(str), 2).upper()` — decimal string to
two-digit-minimum upper-case hex. -/
def str_to_hexa (s : String) : String := String.mk (zfill 2 (hexUpper (natOfDigits s.data)))

/-- The hex components the color loop computes:
`list(map(lambda c: str_to_hexa(c), re.findall(r'\d+', value)))`. -/
def rgbHexComponents (v : String) : List String := (findDigitRuns v).map str_to_hexa

/-- The key-parsing stage of the color loop (lines 131-139): token split,
group = first token, identifier name, human-readable description.
`none` models the `IndexError` raised by `key_tokens[0]` on an empty split. -/
def classifyKey (key : String) : Option (String × String × String) :=
  match camel_case_split key with
  | [] => none
  | g :: rest =>
    some (g, lowercase_first_letter (String.join (g :: rest)),
      String.intercalate " " (g :: rest))

/-- Python tuple comparison on `(key, value)` pairs, as used by
`sorted(colors.items())`. -/
def pairLeb (a b : String × String) : Bool :=
  if strLtb a.1 b.1 then true
  else if strLtb b.1 a.1 then false
  else strLeb a.2 b.2

/-- `sorted(colors.items())`. -/
def sortPairs (l : List (String × String)) : List (String × String) := sortPy pairLeb l

/-- One appended line of the generated sources: either a `// MARK:` group
header or a color entry (original key retained for bookkeeping). -/
inductive RenderedLine where
  | header (group : String)
  | entry (key name description : String)
deriving DecidableEq, Repr

/-- Filesystem effects of `update_colors.py`. -/
inductive FsAction where
  | rmtreeAssets
  | mkdirAssets
  | mkdirGroup (group : String)
  | mkdirColorset (group description : String)
  | writeGroupContents (group content : String)
  | writeColorsetContents (group description content : String)
  | writeSource (filename content : String)
deriving DecidableEq, Repr

def xcassets_header : String :=
  "\x7b\n  \"info\" : \x7b\n    \"author\" : \"xcode\",\n    \"version\" : 1\n  \x7d\n\x7d\n"

/-- `xcassets_color_template.format(R = ..., G = ..., B = ...)`. -/
def xcassets_color_content (r g b : String) : String :=
  "\x7b\n  \"colors\" : [\n    \x7b\n      \"color\" : \x7b\n        \"color-space\" : \"srgb\",\n        \"components\" : \x7b\n          \"alpha\" : \"1.000\",\n          \"blue\" : \"0x"
    ++ b ++ "\",\n          \"green\" : \"0x" ++ g ++ "\",\n          \"red\" : \"0x" ++ r
    ++ "\"\n        \x7d\n      \x7d\n    \x7d,\n      \"idiom\" : \"universal\"\n    \x7d\n  ],\n  \"info\" : \x7b\n    \"author\" : \"xcode\",\n    \"version\" : 1\n  \x7d\n\x7d\n"

def source_group_template (group : String) : String := "\n    // MARK: - " ++ group

def sourceColorLineOf : RenderedLine → String
  | .header g => source_group_template g
  | .entry _ n d => "    static let " ++ n ++ " = Color(\"" ++ d ++ "\", bundle: .current)"

def sourceUIColorLineOf : RenderedLine → String
  | .header g => source_group_template g
  | .entry _ n d => "    static let " ++ n ++ " = fromResource(named: \"" ++ d ++ "\")"

def source_template (colorList : String) : String :=
  "/// Generated and updated by \x27Automation/orbit/update_colors.py\x27\n// swiftlint:disable:previous orphaned_doc_comment\n\nimport SwiftUI\n\npublic extension Color \x7b\n"
    ++ colorList ++ "\n\x7d\n"

def source_template_uicolor (colorList : String) : String :=
  "/// Generated and updated by \x27Automation/orbit/update_colors.py\x27\n// swiftlint:disable:previous orphaned_doc_comment\n\nimport UIKit\n\npublic extension UIColor \x7b\n"
    ++ colorList ++ "\n\x7d\n"

/-- The `for key, value in sorted(colors.items())` loop body (lines 128-167),
given the group of the previously processed entry.  Returns the appended
source lines and the filesystem actions; `.error` models the uncaught
`IndexError` (empty token split) and the failed `assert` on the RGB count. -/
def colorLoopAux (checkOnly : Bool) : String → List (String × String) →
    Except String (List RenderedLine × List FsAction)
  | _, [] => .ok ([], [])
  | lastGroup, (key, value) :: rest =>
    match classifyKey key with
    | none => .error "IndexError: list index out of range"
    | some (group, name, description) =>
      if name = "white" then colorLoopAux checkOnly lastGroup rest
      else
        let rgb := rgbHexComponents value
        if rgb.length = 3 then
          let heads := if group ≠ lastGroup then [RenderedLine.header group] else []
          let entryActions :=
            if checkOnly then []
            else
              [FsAction.mkdirGroup group, FsAction.mkdirColorset group description,
                FsAction.writeGroupContents group xcassets_header,
                FsAction.writeColorsetContents group description
                  (xcassets_color_content (rgb.getD 0 "") (rgb.getD 1 "") (rgb.getD 2 ""))]
          match colorLoopAux checkOnly group rest with
          | .error e => .error e
          | .ok (rls, acts) =>
            .ok (heads ++ RenderedLine.entry key name description :: rls,
              entryActions ++ acts)
        else .error "Expected 3 decimal RGB values from JSON"

/-- The two generated file contents (`updatedSourceContent`,
`updatedSourceContentUIColor`) as a pure function of the fetched colors. -/
def renderedContents (colors : List (String × String)) : Except String (String × String) :=
  match colorLoopAux true "" (sortPairs colors) with
  | .error e => .error e
  | .ok (rls, _) =>
    .ok (source_template (String.intercalate "\n" (rls.map sourceColorLineOf)),
      source_template_uicolor (String.intercalate "\n" (rls.map sourceUIColorLineOf)))

/-- State of the external issue tracker consulted by
`update_colors_jira_task.py`: the unresolved "Update Orbit Colors" issues the
JQL search returns, and the "Next App Store" versions of the project. -/
structure TrackerState where
  unresolvedIssues : List String
  nextAppStoreVersions : List String
deriving DecidableEq, Repr

/-- `update_colors_jira_task.create()` (lines 8-76): returns the process exit
code; `.error` models the uncaught `IndexError` when no "Next App Store"
version exists. -/
def jira_create (t : TrackerState) : Except String Nat :=
  if t.unresolvedIssues.length ≠ 0 then
    if t.unresolvedIssues.length > 1 then .ok 1 else .ok 0
  else
    if t.nextAppStoreVersions.length > 1 then .ok 1
    else
      match t.nextAppStoreVersions with
      | [] => .error "IndexError: list index out of range"
      | _ :: _ => .ok 0

/-- Whole-script model of `update_colors.py` `__main__` (lines 110-186):
result is `(exit code, ticket step invoked, filesystem actions)`.
`diskC`/`diskU` are the current on-disk contents of `Colors.swift` and
`UIColors.swift`; `tracker` is the external tracker state. -/
def runColors (checkOnly : Bool) (colors : List (String × String))
    (diskC diskU : String) (tracker : TrackerState) :
    Except String (Nat × Bool × List FsAction) :=
  let preActions := if checkOnly then [] else [FsAction.rmtreeAssets, FsAction.mkdirAssets]
  match colorLoopAux checkOnly "" (sortPairs colors) with
  | .error e => .error e
  | .ok (rls, loopActs) =>
    let content := source_template (String.intercalate "\n" (rls.map sourceColorLineOf))
    let contentU :=
      source_template_uicolor (String.intercalate "\n" (rls.map sourceUIColorLineOf))
    if checkOnly then
      if content = diskC ∧ contentU = diskU then .ok (0, false, preActions ++ loopActs)
      else
        match jira_create tracker with
        | .error e => .error e
        | .ok code => .ok (code, true, preActions ++ loopActs)
    else
      .ok (0, false, preActions ++ loopActs ++
        [FsAction.writeSource "Colors.swift" content,
          FsAction.writeSource "UIColors.swift" contentU])

/-- Python `str.lower()` (ASCII range, which covers the glyph names). -/
def pyLowerStr (s : String) : String := String.mk (s.data.map Char.toLower)

def isAsciiAlpha (c : Char) : Bool := isUpperAZ c || isLowerAZ c

/-- Python `str.title()` (ASCII): upper-cases each letter that follows a
non-letter, lower-cases the rest. -/
def pyTitleAux : Bool → List Char → List Char
  | _, [] => []
  | prevAlpha, c :: cs =>
    if isAsciiAlpha c then
      (if prevAlpha then Char.toLower c else Char.toUpper c) :: pyTitleAux true cs
    else c :: pyTitleAux false cs

def pyTitle (s : String) : String := String.mk (pyTitleAux false s.data)

/-- Python `str.split(sep)` for a one-character separator. -/
def pySplitChar (sep : Char) : List Char → List (List Char)
  | [] => [[]]
  | c :: rest =>
    if c = sep then [] :: pySplitChar sep rest
    else
      match pySplitChar sep rest with
      | [] => [[c]]
      | h :: t => (c :: h) :: t

/-- `kebab_case_to_camel_case` from `update_icons.py`:
`head, *tail = string.split("-"); "".join([head.lower()] + [x.title() for x in tail])`. -/
def kebab_case_to_camel_case (s : String) : String :=
  match (pySplitChar '-' s.data).map String.mk with
  | [] => ""
  | head :: tail => String.join (pyLowerStr head :: tail.map pyTitle)

/-- `value.encode("unicode_escape")` for a one-character string with the
given code point (the glyph values in `orbit-icons.svg`), as the byte list
Python produces. -/
def pyUnicodeEscapeChar (cp : Nat) : List Char :=
  if cp = 92 then ['\\', '\\']
  else if cp = 9 then ['\\', 't']
  else if cp = 10 then ['\\', 'n']
  else if cp = 13 then ['\\', 'r']
  else if 32 ≤ cp ∧ cp ≤ 126 then [Char.ofNat cp]
  else if cp < 256 then '\\' :: 'x' :: zfill 2 (hexLower cp)
  else if cp < 65536 then '\\' :: 'u' :: zfill 4 (hexLower cp)
  else '\\' :: 'U' :: zfill 8 (hexLower cp)

/-- Escaping of repr: backslashes doubled, the chosen quote escaped. -/
def pyReprEscape (quote : Char) : List Char → List Char
  | [] => []
  | c :: cs =>
    (if c = '\\' then ['\\', '\\'] else if c = quote then ['\\', quote] else [c])
      ++ pyReprEscape quote cs

/-- `str(b)` for a printable-ASCII bytes object: `b'...'`, switching to
double quotes when the content has a single quote and no double quote. -/
def pyBytesRepr (l : List Char) : List Char :=
  if l.contains '\'' && !(l.contains '"')
  then 'b' :: '"' :: (pyReprEscape '"' l ++ ['"'])
  else 'b' :: '\'' :: (pyReprEscape '\'' l ++ ['\''])

/-- `pat in s` for character lists. -/
def containsSeq (pat : List Char) : List Char → Bool
  | [] => pat.isEmpty
  | c :: rest => pat.isPrefixOf (c :: rest) || containsSeq pat rest

/-- The `inner_value` computation of the icon loop (lines 85-90): from the
`unicode_escape`d repr when it contains `\u`, else zero-padded 4-digit hex
of the code point. -/
def icon_inner_value (cp : Nat) : List Char :=
  let encStr := pyBytesRepr (pyUnicodeEscapeChar cp)
  if containsSeq ['\\', 'u'] encStr then
    List.getLastD (pySplitChar 'u' ((pySplitChar '\'' encStr).getD 1 [])) []
  else zfill 4 (hexLower cp)

/-- `swift_value = f"\u{{{inner_value}}}"`. -/
def swift_icon_value (cp : Nat) : String :=
  "\\u\x7b" ++ String.mk (icon_inner_value cp) ++ "\x7d"

/-- `sorted(icon_values.items(), key = lambda x: x[0].lower())` comparison. -/
def iconLeb (a b : String × Nat) : Bool := strLeb (pyLowerStr a.1) (pyLowerStr b.1)

def sortIcons (icons : List (String × Nat)) : List (String × Nat) := sortPy iconLeb icons

def icon_case_line (n : String) : String :=
  "        /// Orbit \x60" ++ n ++ "\x60 icon symbol.\n        case " ++ n

def icon_value_line (n v : String) : String :=
  "                case ." ++ n ++ ": return \"" ++ v ++ "\""

def icon_extension_line (n : String) : String :=
  "    /// Orbit \x60" ++ n ++ "\x60 icon symbol with unspecified color.\n    static let "
    ++ n ++ ": Self = .symbol(." ++ n ++ ")"

def iconSentinelCaseLine : String := "        /// Absence of Orbit icon.\n        case none"

def iconSentinelValueLine : String := "                case .none: return \"\""

def iconSentinelExtensionLine : String :=
  "    /// Absence of Orbit icon.\n    static let none: Self = .symbol(.none)"

/-- The icon rendering loop of `update_icons.py` `__main__` (lines 73-96):
glyph `(name, code point)` pairs to `(case_lines, value_lines,
value_extension_lines)`; the sentinel `none` entry is appended before the
sorted loop output. -/
def iconLoop (icons : List (String × Nat)) : List String × List String × List String :=
  (iconSentinelCaseLine ::
      (sortIcons icons).map (fun p => icon_case_line (kebab_case_to_camel_case p.1)),
    iconSentinelValueLine ::
      (sortIcons icons).map
        (fun p => icon_value_line (kebab_case_to_camel_case p.1) (swift_icon_value p.2)),
    iconSentinelExtensionLine ::
      (sortIcons icons).map (fun p => icon_extension_line (kebab_case_to_camel_case p.1)))

/-- Filesystem effects of `update_illustrations.py`. -/
inductive IllAction where
  | mkdirAssetsRoot
  | mkdirImageset (name : String)
  | writeContents (name content : String)
  | removeOriginal (name : String)
  | writeIllustrationsSource (content : String)
deriving DecidableEq, Repr

def isWordChar (c : Char) : Bool := isUpperAZ c || isLowerAZ c || c.isDigit || c = '_'

/-- `re.search('\"(\w+)\"', line)`: the first maximal word-character run that
is enclosed in double quotes. -/
def searchQuotedWord : List Char → Option (List Char)
  | [] => none
  | c :: rest =>
    if c = '"' then
      let w := rest.takeWhile isWordChar
      if w.length ≠ 0 && (rest.drop w.length).head? = some '"' then some w
      else searchQuotedWord rest
    else searchQuotedWord rest

/-- `get_illustration_names` (lines 60-72) applied to the fetched source
lines: one name per line that has a quoted identifier. -/
def discoverNames (srcLines : List String) : List String :=
  srcLines.filterMap (fun line => (searchQuotedWord line.data).map String.mk)

/-- `content_template.format(name = ...)`. -/
def content_template_json (name : String) : String :=
  "\x7b\n  \"images\" : [\n    \x7b\n      \"filename\" : \"" ++ name
    ++ "@1x.png\",\n      \"idiom\" : \"universal\",\n      \"scale\" : \"1x\"\n    \x7d,\n    \x7b\n      \"filename\" : \""
    ++ name
    ++ "@2x.png\",\n      \"idiom\" : \"universal\",\n      \"scale\" : \"2x\"\n    \x7d,\n    \x7b\n      \"filename\" : \""
    ++ name
    ++ "@3x.png\",\n      \"idiom\" : \"universal\",\n      \"scale\" : \"3x\"\n    \x7d\n  ],\n  \"info\" : \x7b\n    \"author\" : \"xcode\",\n    \"version\" : 1\n  \x7d\n\x7d\n"

def illustration_url (name : String) : String :=
  "https://images.kiwi.com/illustrations/originals/" ++ name ++ ".png"

def illustration_source_template (cases : String) : String :=
  "import Foundation\nimport Orbit\n\npublic extension Illustration \x7b\n\n    enum Asset: String, CaseIterable, AssetNameProviding \x7b\n"
    ++ cases ++ "\n    \x7d\n\x7d\n"

def resize_log (name : String) : String :=
  "Resizing [" ++ name ++ "] -> [200@1x] ... [400@2x] ... [600@3x] ... "

/-- `download_and_resize_illustration` (lines 74-102).  `oracle` gives the
outcome of the external download/resize work for each name; an `.error`
outcome is the exception caught by the `except` clause and logged as
`❗️{e}`.  Returns `(printed lines, filesystem actions)`. -/
def download_and_resize (oracle : String → Except String Unit) (name : String) :
    List String × List IllAction :=
  let dl := "Downloading [" ++ illustration_url name ++ "] ..."
  match oracle name with
  | .ok _ => ([dl, resize_log name], [IllAction.removeOriginal name])
  | .error e => ([dl, "❗️" ++ e], [])

/-- The per-illustration loop of `__main__` (lines 121-132): manifest
directory and `Contents.json` first, then the guarded download, then the
appended `case` line (`illustration[0]` raises `IndexError` on an empty
name, which would abort the run). -/
def illustrationsLoop (oracle : String → Except String Unit) :
    List String → Except String (List String × List IllAction × List String)
  | [] => .ok ([], [], [])
  | name :: rest =>
    let pre := [IllAction.mkdirImageset name,
      IllAction.writeContents name (content_template_json name)]
    let dr := download_and_resize oracle name
    match name.data with
    | [] => .error "IndexError: string index out of range"
    | c :: cs =>
      match illustrationsLoop oracle rest with
      | .error e => .error e
      | .ok (log, acts, cls) =>
        .ok (dr.1 ++ log, pre ++ dr.2 ++ acts,
          ("        case " ++ String.mk (Char.toLower c :: cs)) :: cls)

/-- Result of one `update_illustrations.py` run:  stdout lines, filesystem
actions, the sorted `case` lines and the generated `Illustrations.swift`
content. -/
structure IllRun where
  log : List String
  actions : List IllAction
  caseLines : List String
  enumContent : String
deriving DecidableEq, Repr

/-- `update_illustrations.py` `__main__` (lines 114-139) over the fetched
source lines and the external download oracle. -/
def illustrationsRun (oracle : String → Except String Unit) (srcLines : List String) :
    Except String IllRun :=
  match illustrationsLoop oracle (discoverNames srcLines) with
  | .error e => .error e
  | .ok (log, acts, cls) =>
    let sortedCases := sortPy strLeb cls
    let content := illustration_source_template (String.intercalate "\n" sortedCases)
    .ok ⟨log, IllAction.mkdirAssetsRoot :: acts
        ++ [IllAction.writeIllustrationsSource content],
      sortedCases, content⟩

/-- `ios_runtime_id` (lines 12-14):
`"com.apple.CoreSimulator.SimRuntime.iOS-" + "-".join(ios_version.split("."))`. -/
def ios_runtime_id (ios_version : String) : String :=
  "com.apple.CoreSimulator.SimRuntime.iOS-"
    ++ String.intercalate "-" ((pySplitChar '.' ios_version.data).map String.mk)

/-- Everything `main` (lines 17-26) does before the first external
`xcrun` invocation: read `sys.argv[1]`/`sys.argv[2]` (an out-of-range access
raises `IndexError`) and derive the runtime identifier.  The script contains
no other precondition check. -/
def resolver_pre_external (argv : List String) : Except String (String × String × String) :=
  match argv with
  | _ :: name :: version :: _ => .ok (name, version, ios_runtime_id version)
  | _ => .error "IndexError: list index out of range"

/-- The spec's input-format predicate for the resolver (stated from the
spec's words, for claim C6 only): the OS version is dot-separated numeric
segments. -/
def specDotSeparatedNumeric (s : String) : Bool :=
  (pySplitChar '.' s.data).all (fun seg => seg.length ≠ 0 && seg.all Char.isDigit)

def entryKeys (rls : List RenderedLine) : List String :=
  rls.filterMap (fun rl =>
    match rl with
    | .entry k _ _ => some k
    | .header _ => none)

def entryNames (rls : List RenderedLine) : List String :=
  rls.filterMap (fun rl =>
    match rl with
    | .entry _ n _ => some n
    | .header _ => none)

/-- An entry whose derived identifier is the reserved name `white`. -/
def isWhiteEntry (e : String × String) : Bool :=
  match classifyKey e.1 with
  | some (_, name, _) => name == "white"
  | none => false

def actionWriteSources (acts : List FsAction) : List (String × String) :=
  acts.filterMap (fun a =>
    match a with
    | .writeSource f c => some (f, c)
    | _ => none)

def demoColors : List (String × String) := [("paletteBlueNormal", "rgb(0,91,172)")]

def demoColors2 : List (String × String) :=
  [("paletteBlueNormal", "rgb(0,91,172)"), ("paletteBlueDark", "rgb(0,69,130)")]

def demoSortRls : List RenderedLine :=
  match colorLoopAux true "" (sortPairs demoColors2) with
  | .ok p => p.1
  | .error _ => []

def demoWhiteColors : List (String × String) :=
  [("paletteWhite", "bad"), ("paletteBlueNormal", "rgb(0,91,172)")]

def demoWhiteRls : List RenderedLine :=
  match colorLoopAux true "" demoWhiteColors with
  | .ok p => p.1
  | .error _ => []

def demoRenderedC : String :=
  match renderedContents demoColors with
  | .ok p => p.1
  | .error _ => ""

def demoRenderedU : String :=
  match renderedContents demoColors with
  | .ok p => p.2
  | .error _ => ""

/-- The ambiguous tracker states of `update_colors_jira_task.create`:
more than one matching unresolved issue, or none and more than one
"Next App Store" version. -/
def trackerAmbiguous (t : TrackerState) : Prop :=
  1 < t.unresolvedIssues.length ∨
    (t.unresolvedIssues = [] ∧ 1 < t.nextAppStoreVersions.length)

def demoIllLines : List String := ["  \"Accommodation\",", "  \"Boarding\","]

def demoOracleFail : String → Except String Unit :=
  fun n => if n = "Accommodation" then .error "HTTP Error 404: Not Found" else .ok ()

def demoOracleOk : String → Except String Unit := fun _ => .ok ()

def demoIllRunFail : IllRun :=
  match illustrationsRun demoOracleFail demoIllLines with
  | .ok r => r
  | .error _ => ⟨[], [], [], ""⟩

def demoIllRunOk : IllRun :=
  match illustrationsRun demoOracleOk demoIllLines with
  | .ok r => r
  | .error _ => ⟨[], [], [], ""⟩

/-! ## Theorems -/

theorem char_eq_of_toNat_eq {a b : Char} (h : a.toNat = b.toNat) : a = b :=
  Char.ext (UInt32.toNat.inj h)

theorem listLtb_asymm : ∀ {l₁ l₂ : List Char},
    listLtb l₁ l₂ = true → listLtb l₂ l₁ = false := by
  intro l₁
  induction l₁ with
  | nil =>
    intro l₂ h
    cases l₂ with
    | nil => simp [listLtb] at h
    | cons b bs => rfl
  | cons a as ih =>
    intro l₂ h
    cases l₂ with
    | nil => simp [listLtb] at h
    | cons b bs =>
      rcases Nat.lt_trichotomy a.toNat b.toNat with hc | hc | hc
      · simp [listLtb, hc, Nat.lt_asymm hc]
      · simp only [listLtb, hc, lt_irrefl, if_false] at h ⊢
        exact ih h
      · simp [listLtb, hc, Nat.lt_asymm hc] at h

theorem listLtb_trans : ∀ {l₁ l₂ l₃ : List Char},
    listLtb l₁ l₂ = true → listLtb l₂ l₃ = true → listLtb l₁ l₃ = true := by
  intro l₁
  induction l₁ with
  | nil =>
    intro l₂ l₃ h₁ h₂
    cases l₂ with
    | nil => simp [listLtb] at h₁
    | cons b bs =>
      cases l₃ with
      | nil => simp [listLtb] at h₂
      | cons c cs => rfl
  | cons a as ih =>
    intro l₂ l₃ h₁ h₂
    cases l₂ with
    | nil => simp [listLtb] at h₁
    | cons b bs =>
      cases l₃ with
      | nil => simp [listLtb] at h₂
      | cons c cs =>
        rcases Nat.lt_trichotomy a.toNat b.toNat with hab | hab | hab
        · rcases Nat.lt_trichotomy b.toNat c.toNat with hbc | hbc | hbc
          · have : a.toNat < c.toNat := Nat.lt_trans hab hbc
            simp [listLtb, this]
          · simp [listLtb, hbc ▸ hab]
          · simp [listLtb, hbc, Nat.lt_asymm hbc] at h₂
        · rcases Nat.lt_trichotomy b.toNat c.toNat with hbc | hbc | hbc
          · simp [listLtb, hab ▸ hbc]
          · simp only [listLtb, hab, hbc, lt_irrefl, if_false] at h₁ h₂ ⊢
            exact ih h₁ h₂
          · simp [listLtb, hbc, Nat.lt_asymm hbc] at h₂
        · simp [listLtb, hab, Nat.lt_asymm hab] at h₁

theorem listLtb_eq_of_both_false : ∀ {l₁ l₂ : List Char},
    listLtb l₁ l₂ = false → listLtb l₂ l₁ = false → l₁ = l₂ := by
  intro l₁
  induction l₁ with
  | nil =>
    intro l₂ h₁ _
    cases l₂ with
    | nil => rfl
    | cons b bs => simp [listLtb] at h₁
  | cons a as ih =>
    intro l₂ h₁ h₂
    cases l₂ with
    | nil => simp [listLtb] at h₂
    | cons b bs =>
      rcases Nat.lt_trichotomy a.toNat b.toNat with hc | hc | hc
      · simp [listLtb, hc] at h₁
      · simp only [listLtb, hc, lt_irrefl, if_false] at h₁ h₂
        rw [char_eq_of_toNat_eq hc, ih h₁ h₂]
      · simp [listLtb, hc] at h₂

theorem strLeb_total : ∀ s t : String, strLeb s t = true ∨ strLeb t s = true := by
  intro s t
  simp only [strLeb, strLtb, Bool.not_eq_true']
  by_cases h : listLtb t.data s.data = true
  · exact Or.inr (listLtb_asymm h)
  · exact Or.inl (by simpa using h)

theorem strLeb_trans : ∀ {s t u : String},
    strLeb s t = true → strLeb t u = true → strLeb s u = true := by
  intro s t u h₁ h₂
  simp only [strLeb, Bool.not_eq_true', strLtb] at h₁ h₂ ⊢
  by_cases hus : listLtb u.data s.data = true
  · by_cases htu : listLtb t.data u.data = true
    · by_cases hts : listLtb t.data s.data = true
      · exact absurd hts (by simp [h₁])
      · have := listLtb_trans htu hus
        exact absurd this (by simpa using hts)
    · have hdata : u.data = t.data := listLtb_eq_of_both_false h₂ (by simpa using htu)
      rw [hdata] at hus
      exact absurd hus (by simp [h₁])
  · simpa using hus

theorem strLtb_of_strLeb_of_ne : ∀ {s t : String},
    strLeb s t = true → s ≠ t → strLtb s t = true := by
  intro s t h hne
  simp only [strLeb, Bool.not_eq_true'] at h
  by_cases hlt : strLtb s t = true
  · exact hlt
  · exact absurd (String.ext (listLtb_eq_of_both_false (by simpa [strLtb] using hlt) h))
      hne

theorem insertSorted_perm (le : α → α → Bool) (x : α) :
    ∀ l : List α, (insertSorted le x l).Perm (x :: l) := by
  intro l
  induction l with
  | nil => exact List.Perm.refl _
  | cons y l ih =>
    simp only [insertSorted]
    split
    · exact List.Perm.refl _
    · exact (List.Perm.cons y ih).trans (List.Perm.swap x y l)

theorem sortPy_perm (le : α → α → Bool) : ∀ l : List α, (sortPy le l).Perm l := by
  intro l
  induction l with
  | nil => exact List.Perm.refl _
  | cons x l ih =>
    exact (insertSorted_perm le x (sortPy le l)).trans (List.Perm.cons x ih)

theorem insertSorted_pairwise (le : α → α → Bool)
    (htrans : ∀ a b c, le a b = true → le b c = true → le a c = true)
    (htot : ∀ a b, le a b = true ∨ le b a = true) (x : α) :
    ∀ {l : List α}, l.Pairwise (fun a b => le a b = true) →
      (insertSorted le x l).Pairwise (fun a b => le a b = true) := by
  intro l
  induction l with
  | nil => intro _; exact List.pairwise_singleton _ x
  | cons y l ih =>
    intro hp
    rw [List.pairwise_cons] at hp
    simp only [insertSorted]
    by_cases hxy : le x y = true
    · rw [if_pos hxy]
      rw [List.pairwise_cons]
      refine ⟨?_, List.pairwise_cons.mpr hp⟩
      intro z hz
      rcases List.mem_cons.mp hz with hz | hz
      · subst hz; exact hxy
      · exact htrans x y z hxy (hp.1 z hz)
    · rw [if_neg hxy]
      rw [List.pairwise_cons]
      refine ⟨?_, ih hp.2⟩
      intro z hz
      have hz' := (insertSorted_perm le x l).mem_iff.mp hz
      rcases List.mem_cons.mp hz' with hz' | hz'
      · subst hz'
        rcases htot y z with h | h
        · exact h
        · exact absurd h hxy
      · exact hp.1 z hz'

theorem sortPy_pairwise (le : α → α → Bool)
    (htrans : ∀ a b c, le a b = true → le b c = true → le a c = true)
    (htot : ∀ a b, le a b = true ∨ le b a = true) :
    ∀ l : List α, (sortPy le l).Pairwise (fun a b => le a b = true) := by
  intro l
  induction l with
  | nil => exact List.Pairwise.nil
  | cons x l ih => exact insertSorted_pairwise le htrans htot x ih

example : camel_case_split "paletteBlueNormal" = ["Blue", "Normal"] := by decide

example : classifyKey "paletteBlueNormal" = some ("Blue", "blueNormal", "Blue Normal") := by
  decide

example : rgbHexComponents "rgb(0,91,172)" = ["00", "5B", "AC"] := by decide

example : camel_case_split "paletteWhite" = ["White"] := by decide

example : camel_case_split "paletteABCx" = ["AB", "Cx"] := by decide

example : kebab_case_to_camel_case "arrow-up" = "arrowUp" := by decide

example : kebab_case_to_camel_case "alert-octagon" = "alertOctagon" := by decide

example : String.mk (pyBytesRepr (pyUnicodeEscapeChar 59649)) = "b\x27\\\\ue901\x27" := by
  decide

example : swift_icon_value 59649 = "\\u\x7be901\x7d" := by decide

example : swift_icon_value 65 = "\\u\x7b0041\x7d" := by decide

example : discoverNames ["  \"Accommodation\",", "  \"Boarding\",", "];"] =
    ["Accommodation", "Boarding"] := by decide

example : ios_runtime_id "15.2" = "com.apple.CoreSimulator.SimRuntime.iOS-15-2" := by decide

example : specDotSeparatedNumeric "15.2" = true := by decide

example : specDotSeparatedNumeric "16.x" = false := by decide

theorem colorLoopAux_true_acts : ∀ {lastGroup : String} {l : List (String × String)}
    {rls : List RenderedLine} {acts : List FsAction},
    colorLoopAux true lastGroup l = .ok (rls, acts) → acts = [] := by
  intro lastGroup l
  induction l generalizing lastGroup with
  | nil =>
    intro rls acts h
    simp only [colorLoopAux] at h
    cases h
    rfl
  | cons e l ih =>
    intro rls acts h
    obtain ⟨k, v⟩ := e
    simp only [colorLoopAux] at h
    cases hk : classifyKey k with
    | none => rw [hk] at h; cases h
    | some gnd =>
      obtain ⟨g, n, d⟩ := gnd
      rw [hk] at h
      simp only at h
      by_cases hw : n = "white"
      · rw [if_pos hw] at h
        exact ih h
      · rw [if_neg hw] at h
        by_cases h3 : (rgbHexComponents v).length = 3
        · rw [if_pos h3] at h
          cases hr : colorLoopAux true g l with
          | error e => rw [hr] at h; cases h
          | ok p =>
            obtain ⟨rls', acts'⟩ := p
            rw [hr] at h
            simp only [if_true] at h
            cases h
            simpa using ih hr
        · rw [if_neg h3] at h
          cases h

theorem colorLoopAux_lines_flag : ∀ (b₁ b₂ : Bool) (lastGroup : String)
    (l : List (String × String)),
    (colorLoopAux b₁ lastGroup l).map Prod.fst = (colorLoopAux b₂ lastGroup l).map Prod.fst := by
  intro b₁ b₂ lastGroup l
  induction l generalizing lastGroup with
  | nil => rfl
  | cons e l ih =>
    obtain ⟨k, v⟩ := e
    simp only [colorLoopAux]
    cases hk : classifyKey k with
    | none => rfl
    | some gnd =>
      obtain ⟨g, n, d⟩ := gnd
      simp only
      by_cases hw : n = "white"
      · rw [if_pos hw, if_pos hw]
        exact ih lastGroup
      · rw [if_neg hw, if_neg hw]
        by_cases h3 : (rgbHexComponents v).length = 3
        · rw [if_pos h3, if_pos h3]
          have := ih g
          cases h₁ : colorLoopAux b₁ g l with
          | error e =>
            cases h₂ : colorLoopAux b₂ g l with
            | error e' =>
              rw [h₁, h₂] at this
              simp only [Except.map] at this
              cases this
              rfl
            | ok p => rw [h₁, h₂] at this; simp [Except.map] at this
          | ok p =>
            obtain ⟨rls₁, acts₁⟩ := p
            cases h₂ : colorLoopAux b₂ g l with
            | error e' => rw [h₁, h₂] at this; simp [Except.map] at this
            | ok q =>
              obtain ⟨rls₂, acts₂⟩ := q
              rw [h₁, h₂] at this
              simp only [Except.map, Except.ok.injEq] at this
              simp [Except.map, this]
        · rw [if_neg h3, if_neg h3]

theorem colorLoopAux_no_writeSource : ∀ {b : Bool} {lastGroup : String}
    {l : List (String × String)} {rls : List RenderedLine} {acts : List FsAction},
    colorLoopAux b lastGroup l = .ok (rls, acts) → actionWriteSources acts = [] := by
  intro b lastGroup l
  induction l generalizing lastGroup with
  | nil =>
    intro rls acts h
    cases h
    rfl
  | cons e l ih =>
    intro rls acts h
    obtain ⟨k, v⟩ := e
    simp only [colorLoopAux] at h
    cases hk : classifyKey k with
    | none => rw [hk] at h; cases h
    | some gnd =>
      obtain ⟨g, n, d⟩ := gnd
      rw [hk] at h
      simp only at h
      by_cases hw : n = "white"
      · rw [if_pos hw] at h
        exact ih h
      · rw [if_neg hw] at h
        by_cases h3 : (rgbHexComponents v).length = 3
        · rw [if_pos h3] at h
          cases hr : colorLoopAux b g l with
          | error e => rw [hr] at h; cases h
          | ok p =>
            obtain ⟨rls', acts'⟩ := p
            rw [hr] at h
            cases h
            have htail := ih hr
            cases b with
            | true =>
              simpa [actionWriteSources, List.filterMap_append, List.filterMap_cons]
                using htail
            | false =>
              simpa [actionWriteSources, List.filterMap_append, List.filterMap_cons]
                using htail
        · rw [if_neg h3] at h
          cases h

theorem colorLoopAux_keys_sublist : ∀ {b : Bool} {lastGroup : String}
    {l : List (String × String)} {rls : List RenderedLine} {acts : List FsAction},
    colorLoopAux b lastGroup l = .ok (rls, acts) →
    (entryKeys rls).Sublist (l.map Prod.fst) := by
  intro b lastGroup l
  induction l generalizing lastGroup with
  | nil =>
    intro rls acts h
    cases h
    exact List.Sublist.refl _
  | cons e l ih =>
    intro rls acts h
    obtain ⟨k, v⟩ := e
    simp only [colorLoopAux] at h
    cases hk : classifyKey k with
    | none => rw [hk] at h; cases h
    | some gnd =>
      obtain ⟨g, n, d⟩ := gnd
      rw [hk] at h
      simp only at h
      by_cases hw : n = "white"
      · rw [if_pos hw] at h
        exact (ih h).cons k
      · rw [if_neg hw] at h
        by_cases h3 : (rgbHexComponents v).length = 3
        · rw [if_pos h3] at h
          cases hr : colorLoopAux b g l with
          | error e => rw [hr] at h; cases h
          | ok p =>
            obtain ⟨rls', acts'⟩ := p
            rw [hr] at h
            cases h
            have htail := ih hr
            by_cases hg : g ≠ lastGroup
            · rw [if_pos hg]
              simp only [entryKeys, List.filterMap_append, List.filterMap]
              simpa [entryKeys] using htail.cons₂ k
            · rw [if_neg hg]
              simp only [entryKeys, List.filterMap_append, List.filterMap]
              simpa [entryKeys] using htail.cons₂ k
        · rw [if_neg h3] at h
          cases h

theorem strKey_eq_of_both_not_lt {s t : String} (h₁ : strLtb s t = false)
    (h₂ : strLtb t s = false) : s = t :=
  String.ext (listLtb_eq_of_both_false h₁ h₂)

theorem strLtb_trans : ∀ {s t u : String},
    strLtb s t = true → strLtb t u = true → strLtb s u = true := by
  intro s t u h₁ h₂
  exact listLtb_trans h₁ h₂

theorem pairLeb_total : ∀ a b : String × String, pairLeb a b = true ∨ pairLeb b a = true := by
  intro a b
  simp only [pairLeb]
  by_cases hab : strLtb a.1 b.1 = true
  · left; rw [if_pos hab]
  · by_cases hba : strLtb b.1 a.1 = true
    · right; rw [if_pos hba]
    · have hk : a.1 = b.1 := strKey_eq_of_both_not_lt (by simpa using hab) (by simpa using hba)
      rcases strLeb_total a.2 b.2 with h | h
      · left
        rw [if_neg hab, if_neg hba]
        exact h
      · right
        rw [if_neg hba, if_neg hab]
        exact h

theorem pairLeb_trans : ∀ a b c : String × String,
    pairLeb a b = true → pairLeb b c = true → pairLeb a c = true := by
  intro a b c hab hbc
  simp only [pairLeb] at hab hbc ⊢
  by_cases h₁ : strLtb a.1 b.1 = true
  · by_cases h₂ : strLtb b.1 c.1 = true
    · rw [if_pos (strLtb_trans h₁ h₂)]
    · by_cases h₂' : strLtb c.1 b.1 = true
      · rw [if_pos h₂', if_neg h₂] at hbc
        simp at hbc
      · have : b.1 = c.1 := strKey_eq_of_both_not_lt (by simpa using h₂) (by simpa using h₂')
        rw [if_pos (this ▸ h₁)]
  · by_cases h₁' : strLtb b.1 a.1 = true
    · rw [if_pos h₁', if_neg h₁] at hab
      simp at hab
    · have hk : a.1 = b.1 := strKey_eq_of_both_not_lt (by simpa using h₁) (by simpa using h₁')
      rw [if_neg h₁, if_neg h₁'] at hab
      by_cases h₂ : strLtb b.1 c.1 = true
      · rw [if_pos (hk ▸ h₂)]
      · by_cases h₂' : strLtb c.1 b.1 = true
        · rw [if_pos h₂', if_neg h₂] at hbc
          simp at hbc
        · have hk₂ : b.1 = c.1 :=
            strKey_eq_of_both_not_lt (by simpa using h₂) (by simpa using h₂')
          rw [if_neg h₂, if_neg h₂'] at hbc
          rw [if_neg (by rw [hk, hk₂] at h₁ ⊢; exact h₁),
            if_neg (by rw [hk, hk₂] at h₁' ⊢; exact h₁')]
          exact strLeb_trans hab hbc

theorem pairLeb_key_lt {a b : String × String} (h : pairLeb a b = true)
    (hne : a.1 ≠ b.1) : strLtb a.1 b.1 = true := by
  simp only [pairLeb] at h
  by_cases h₁ : strLtb a.1 b.1 = true
  · exact h₁
  · by_cases h₂ : strLtb b.1 a.1 = true
    · rw [if_pos h₂, if_neg h₁] at h
      simp at h
    · exact absurd (strKey_eq_of_both_not_lt (by simpa using h₁) (by simpa using h₂)) hne

theorem iconLeb_total : ∀ a b : String × Nat, iconLeb a b = true ∨ iconLeb b a = true := by
  intro a b
  exact strLeb_total (pyLowerStr a.1) (pyLowerStr b.1)

theorem iconLeb_trans : ∀ a b c : String × Nat,
    iconLeb a b = true → iconLeb b c = true → iconLeb a c = true := by
  intro a b c hab hbc
  exact strLeb_trans hab hbc

theorem colorLoopAux_filter_white : ∀ (checkOnly : Bool) (lastGroup : String)
    (colors : List (String × String)),
    colorLoopAux checkOnly lastGroup colors
      = colorLoopAux checkOnly lastGroup (colors.filter (fun e => !(isWhiteEntry e))) := by
  intro checkOnly lastGroup colors
  induction colors generalizing lastGroup with
  | nil => rfl
  | cons e colors ih =>
    obtain ⟨k, v⟩ := e
    cases hk : classifyKey k with
    | none =>
      have hwf : isWhiteEntry (k, v) = false := by simp [isWhiteEntry, hk]
      rw [List.filter_cons_of_pos (by simp [hwf])]
      simp only [colorLoopAux, hk]
    | some gnd =>
      obtain ⟨g, n, d⟩ := gnd
      by_cases hw : n = "white"
      · have hwt : isWhiteEntry (k, v) = true := by simp [isWhiteEntry, hk, hw]
        rw [List.filter_cons_of_neg (by simp [hwt])]
        simp only [colorLoopAux, hk]
        rw [if_pos hw]
        exact ih lastGroup
      · have hwf : isWhiteEntry (k, v) = false := by simp [isWhiteEntry, hk, hw]
        rw [List.filter_cons_of_pos (by simp [hwf])]
        simp only [colorLoopAux, hk]
        rw [if_neg hw, if_neg hw]
        by_cases h3 : (rgbHexComponents v).length = 3
        · rw [if_pos h3, if_pos h3, ih g]
        · rw [if_neg h3, if_neg h3]

theorem colorLoopAux_no_white_name : ∀ {checkOnly : Bool} {lastGroup : String}
    {colors : List (String × String)} {rls : List RenderedLine} {acts : List FsAction},
    colorLoopAux checkOnly lastGroup colors = .ok (rls, acts) →
    "white" ∉ entryNames rls := by
  intro checkOnly lastGroup colors
  induction colors generalizing lastGroup with
  | nil =>
    intro rls acts h
    cases h
    simp [entryNames]
  | cons e colors ih =>
    intro rls acts h
    obtain ⟨k, v⟩ := e
    simp only [colorLoopAux] at h
    cases hk : classifyKey k with
    | none => rw [hk] at h; cases h
    | some gnd =>
      obtain ⟨g, n, d⟩ := gnd
      rw [hk] at h
      simp only at h
      by_cases hw : n = "white"
      · rw [if_pos hw] at h
        exact ih h
      · rw [if_neg hw] at h
        by_cases h3 : (rgbHexComponents v).length = 3
        · rw [if_pos h3] at h
          cases hr : colorLoopAux checkOnly g colors with
          | error e => rw [hr] at h; cases h
          | ok p =>
            obtain ⟨rls', acts'⟩ := p
            rw [hr] at h
            cases h
            have htail := ih hr
            by_cases hg : g ≠ lastGroup
            · rw [if_pos hg]
              simp only [entryNames, List.filterMap_append, List.filterMap_cons]
              simp only [entryNames] at htail
              simp [htail]
              exact fun hx => hw hx.symm
            · rw [if_neg hg]
              simp only [entryNames, List.filterMap_append, List.filterMap_cons]
              simp only [entryNames] at htail
              simp [htail]
              exact fun hx => hw hx.symm
        · rw [if_neg h3] at h
          cases h

/-- C1, counterexample: for the JSON entry
`{"paletteBlueNormal": "rgb(0,91,172)"}` the key-parsing stage does NOT
classify group `palette` with identifier `paletteBlueNormal` — the regex of
`camel_case_split` only matches tokens that start with an upper-case letter,
so the lower-case prefix `palette` is dropped. -/
theorem classifyKey_paletteBlueNormal_not_spec :
    (classifyKey "paletteBlueNormal").map (fun x => x.1) ≠ some "palette" ∧
    (classifyKey "paletteBlueNormal").map (fun x => x.2.1) ≠ some "paletteBlueNormal" := by
  exact ⟨by decide, by decide⟩

/-- C1, amended: for the JSON entry `{"paletteBlueNormal": "rgb(0,91,172)"}`
the key-parsing and value-conversion stage classifies the entry with group
`Blue`, derived identifier name `blueNormal` and description `Blue Normal`
(the lower-case `palette` prefix is dropped by the camel-case split), and the
three RGB components convert to the hex pair list `(00, 5B, AC)`. -/
theorem classifyKey_paletteBlueNormal_amended :
    classifyKey "paletteBlueNormal" = some ("Blue", "blueNormal", "Blue Normal") ∧
    rgbHexComponents "rgb(0,91,172)" = ["00", "5B", "AC"] := by
  constructor
  · decide
  · decide

/-- C5: for a glyph index entry with glyph-name `arrow-up` and code point
U+E901, the generated listing contains the case identifier `arrowUp` and the
value-lookup switch line returning the escaped literal `\u{e901}`. -/
theorem icon_arrow_up_entry :
    kebab_case_to_camel_case "arrow-up" = "arrowUp" ∧
    icon_case_line "arrowUp" ∈ (iconLoop [("arrow-up", 59649)]).1 ∧
    icon_value_line "arrowUp" "\\u\x7be901\x7d" ∈ (iconLoop [("arrow-up", 59649)]).2.1 := by
  refine ⟨by decide, ?_, ?_⟩
  · show icon_case_line "arrowUp" ∈ [iconSentinelCaseLine, icon_case_line "arrowUp"]
    simp
  · show icon_value_line "arrowUp" "\\u\x7be901\x7d"
      ∈ [iconSentinelValueLine, icon_value_line "arrowUp" (swift_icon_value 59649)]
    have : swift_icon_value 59649 = "\\u\x7be901\x7d" := by decide
    rw [this]
    simp

/-- C6, counterexample: with OS version `16.x`, which is not dot-separated
numeric segments, the resolver does not abort: argument handling succeeds and
the runtime identifier is derived anyway, so the external tool would be
invoked. -/
theorem resolver_accepts_malformed_version :
    specDotSeparatedNumeric "16.x" = false ∧
    resolver_pre_external ["get_simulator.py", "iPhone 13", "16.x"]
      = .ok ("iPhone 13", "16.x", "com.apple.CoreSimulator.SimRuntime.iOS-16-x") := by
  exact ⟨by decide, rfl⟩

/-- C6, amended: the resolver performs no validation of its arguments before
invoking the external tool: for every device name (even empty) and every OS
version string (numeric or not), the pre-external phase succeeds, deriving
the runtime identifier by joining the dot-separated segments with hyphens;
only a missing argument aborts (with an `IndexError`, not an assertion). -/
theorem resolver_performs_no_validation :
    ∀ (prog name version : String) (rest : List String),
      resolver_pre_external (prog :: name :: version :: rest)
        = .ok (name, version, ios_runtime_id version) := by
  intro prog name version rest
  rfl

/-- C8: entries whose derived identifier is the reserved name `white` are
skipped: the loop output (source lines of both listings and all colorset
asset actions) equals the output on the input with those entries removed, and
no emitted entry line carries the name `white`;  all other entries are
unaffected. -/
theorem white_entries_skipped :
    (∀ (checkOnly : Bool) (lastGroup : String) (colors : List (String × String)),
      colorLoopAux checkOnly lastGroup colors
        = colorLoopAux checkOnly lastGroup (colors.filter (fun e => !(isWhiteEntry e)))) ∧
    (∀ (checkOnly : Bool) (lastGroup : String) (colors : List (String × String))
      (rls : List RenderedLine) (acts : List FsAction),
      colorLoopAux checkOnly lastGroup colors = .ok (rls, acts) →
      "white" ∉ entryNames rls) := by
  constructor
  · exact colorLoopAux_filter_white
  · intro checkOnly lastGroup colors rls acts h
    exact colorLoopAux_no_white_name h

/-- C8, witness: the concrete input with a `paletteWhite` entry produces
lines without the reserved identifier. -/
theorem white_entries_skipped_witness : "white" ∉ entryNames demoWhiteRls :=
  white_entries_skipped.2 true "" demoWhiteColors demoWhiteRls [] (by rfl)

/-- C10: in check-only mode the color generator performs no filesystem
action at all — the asset catalog is neither removed nor recreated, no
manifest is written and neither source file is written — both when the
comparison matches and when it mismatches (which only invokes the external
ticket step). -/
theorem check_only_no_fs_actions :
    ∀ (colors : List (String × String)) (dC dU : String) (t : TrackerState)
      (code : Nat) (tick : Bool) (acts : List FsAction),
      runColors true colors dC dU t = .ok (code, tick, acts) → acts = [] := by
  intro colors dC dU t code tick acts h
  simp only [runColors] at h
  cases hl : colorLoopAux true "" (sortPairs colors) with
  | error e => rw [hl] at h; cases h
  | ok p =>
    obtain ⟨rls, lacts⟩ := p
    rw [hl] at h
    have hla : lacts = [] := colorLoopAux_true_acts hl
    simp only [if_true] at h
    split at h
    · cases h
      simp [hla]
    · cases hj : jira_create t with
      | error e => rw [hj] at h; cases h
      | ok c =>
        rw [hj] at h
        cases h
        simp [hla]

/-- C10, witness: a concrete check-only run (mismatching disk contents, one
unresolved tracker issue) yields an empty action trace. -/
theorem check_only_no_fs_actions_witness :
    ((0 : Nat), true, ([] : List FsAction)).2.2 = [] :=
  check_only_no_fs_actions demoColors "" "" ⟨["MOBILE-100"], []⟩ 0 true [] (by rfl)

/-- C3, counterexample: an update is detected (ticket step invoked) and a
new ticket is filed (no unresolved issue, exactly one target version), yet
the process exits with code 0, not 1 as claimed. -/
theorem checkOnly_filed_ticket_exits_zero :
    runColors true demoColors "" "" ⟨[], ["Next App Store"]⟩ = .ok (0, true, []) ∧
    (0 : Nat) ≠ 1 := by
  exact ⟨by rfl, by decide⟩

/-- C3, amended: in check-only mode the exit code is 0 on success (no update
detected) and also 0 when an update is detected and a ticket is filed or
already exists; it is 1 exactly when an update is detected and the tracker
state is ambiguous (more than one matching unresolved issue, or none and
more than one target version).  The exit code is always 0 or 1 in these
non-crashing runs. -/
theorem checkOnly_exit_code_amended :
    ∀ (colors : List (String × String)) (dC dU : String) (t : TrackerState)
      (code : Nat) (tick : Bool) (acts : List FsAction),
      runColors true colors dC dU t = .ok (code, tick, acts) →
      ((code = 1 ↔ (tick = true ∧ trackerAmbiguous t)) ∧ (code = 0 ∨ code = 1)) := by
  intro colors dC dU t code tick acts h
  simp only [runColors] at h
  cases hl : colorLoopAux true "" (sortPairs colors) with
  | error e => rw [hl] at h; cases h
  | ok p =>
    obtain ⟨rls, lacts⟩ := p
    rw [hl] at h
    simp only [if_true] at h
    split at h
    · cases h
      constructor
      · constructor
        · intro hc; cases hc
        · rintro ⟨hf, -⟩; cases hf
      · exact Or.inl rfl
    · simp only [jira_create] at h
      by_cases hu : t.unresolvedIssues.length ≠ 0
      · rw [if_pos hu] at h
        by_cases hu2 : t.unresolvedIssues.length > 1
        · rw [if_pos hu2] at h
          cases h
          refine ⟨⟨fun _ => ⟨rfl, Or.inl hu2⟩, fun _ => rfl⟩, Or.inr rfl⟩
        · rw [if_neg hu2] at h
          cases h
          refine ⟨⟨fun hc => absurd hc (by decide), ?_⟩, Or.inl rfl⟩
          rintro ⟨-, hamb | ⟨hnil, -⟩⟩
          · exact absurd hamb hu2
          · exact absurd (by simp [hnil]) hu
      · rw [if_neg hu] at h
        have hnil : t.unresolvedIssues = [] := by
          cases hun : t.unresolvedIssues with
          | nil => rfl
          | cons a l => rw [hun] at hu; simp at hu
        by_cases hv : t.nextAppStoreVersions.length > 1
        · rw [if_pos hv] at h
          cases h
          refine ⟨⟨fun _ => ⟨rfl, Or.inr ⟨hnil, hv⟩⟩, fun _ => rfl⟩, Or.inr rfl⟩
        · rw [if_neg hv] at h
          cases hvs : t.nextAppStoreVersions with
          | nil => rw [hvs] at h; cases h
          | cons a l =>
            rw [hvs] at h
            cases h
            refine ⟨⟨fun hc => absurd hc (by decide), ?_⟩, Or.inl rfl⟩
            rintro ⟨-, hamb | ⟨-, hv2⟩⟩
            · simp [hnil] at hamb
            · exact absurd hv2 hv

/-- C3 (amended), witness: a check-only run against an ambiguous tracker
(two unresolved matching issues) exits with code 1. -/
theorem checkOnly_exit_code_amended_witness :
    (((1 : Nat) = 1 ↔ (true = true ∧ trackerAmbiguous ⟨["MOBILE-1", "MOBILE-2"], []⟩)) ∧
      ((1 : Nat) = 0 ∨ (1 : Nat) = 1)) :=
  checkOnly_exit_code_amended demoColors "" "" ⟨["MOBILE-1", "MOBILE-2"], []⟩ 1 true []
    (by rfl)

/-- C4: if a non-dry-run invocation produced the on-disk files from given
token data (it writes exactly the two rendered contents, exits 0, files no
ticket), then a check-only run over the same token data against those files
finds both equal, exits 0, never invokes the ticket step, and performs no
filesystem action. -/
theorem dry_run_after_generation_no_update :
    ∀ (colors : List (String × String)) (c u d0 d1 : String) (tr tr2 : TrackerState),
      renderedContents colors = .ok (c, u) →
      ((runColors false colors d0 d1 tr).map
          (fun x => (x.1, x.2.1, actionWriteSources x.2.2))
        = .ok (0, false, [("Colors.swift", c), ("UIColors.swift", u)]) ∧
      runColors true colors c u tr2 = .ok (0, false, [])) := by
  intro colors c u d0 d1 tr tr2 h
  simp only [renderedContents] at h
  cases hl : colorLoopAux true "" (sortPairs colors) with
  | error e => rw [hl] at h; cases h
  | ok p =>
    obtain ⟨rls, lacts⟩ := p
    rw [hl] at h
    simp only [Except.ok.injEq, Prod.mk.injEq] at h
    obtain ⟨hc, hu⟩ := h
    have hla : lacts = [] := colorLoopAux_true_acts hl
    constructor
    · have hflag := colorLoopAux_lines_flag false true "" (sortPairs colors)
      rw [hl] at hflag
      cases hl2 : colorLoopAux false "" (sortPairs colors) with
      | error e => rw [hl2] at hflag; simp [Except.map] at hflag
      | ok q =>
        obtain ⟨rls₂, acts₂⟩ := q
        rw [hl2] at hflag
        simp only [Except.map, Except.ok.injEq] at hflag
        have hns := colorLoopAux_no_writeSource hl2
        simp only [runColors, hl2, Except.map, hflag, hc, hu]
        simp only [actionWriteSources, List.filterMap_append, List.filterMap_cons] at hns ⊢
        simp [hns]
    · simp only [runColors, hl, if_true]
      rw [if_pos ⟨hc, hu⟩]
      simp [hla]

/-- C4, witness: the concrete single-entry token data round-trips — the
dry run after a generation run reports no update and exits 0. -/
theorem dry_run_after_generation_no_update_witness :
    ((runColors false demoColors "" "" ⟨[], ["Next App Store"]⟩).map
        (fun x => (x.1, x.2.1, actionWriteSources x.2.2))
      = .ok (0, false,
          [("Colors.swift", demoRenderedC), ("UIColors.swift", demoRenderedU)]) ∧
    runColors true demoColors demoRenderedC demoRenderedU ⟨[], ["Next App Store"]⟩
      = .ok (0, false, [])) :=
  dry_run_after_generation_no_update demoColors demoRenderedC demoRenderedU "" ""
    ⟨[], ["Next App Store"]⟩ ⟨[], ["Next App Store"]⟩ (by rfl)

/-- C2, counterexample: for the token set
`{"paletteAb": "rgb(1,2,3)", "palettexAa": "rgb(4,5,6)"}` the color loop
(which iterates in sorted original-key order) renders the entry lines with
derived identifiers `ab` then `aa` — not in ascending order of the derived
identifier, because the camel-case split drops differing lower-case
prefixes. -/
theorem colorLines_not_sorted_by_derived_name :
    (colorLoopAux true "" (sortPairs
        [("paletteAb", "rgb(1,2,3)"), ("palettexAa", "rgb(4,5,6)")])).map
      (fun p => entryNames p.1) = .ok ["ab", "aa"] ∧
    ¬ (["ab", "aa"] : List String).Pairwise (fun a b => strLtb a b = true) := by
  constructor
  · rfl
  · intro hp
    rw [List.pairwise_cons] at hp
    have := hp.1 "aa" (by simp)
    revert this
    decide

/-- C2, amended: entry lines appear in ascending order of the comparison key
the code actually sorts with — for colors, strictly ascending by the
original token key (`sorted(colors.items())`), not by the derived
identifier; for icons, non-decreasing by the lower-cased original glyph name
(`key = lambda x: x[0].lower()`), with the sentinel `none` entry always
emitted first, before the sorted entries, rather than in sorted position. -/
theorem generated_lines_sorted_by_code_key :
    (∀ (colors : List (String × String)) (checkOnly : Bool)
      (rls : List RenderedLine) (acts : List FsAction),
      (colors.map Prod.fst).Nodup →
      colorLoopAux checkOnly "" (sortPairs colors) = .ok (rls, acts) →
      (entryKeys rls).Pairwise (fun a b => strLtb a b = true)) ∧
    (∀ icons : List (String × Nat),
      (iconLoop icons).1 = iconSentinelCaseLine ::
        (sortIcons icons).map (fun p => icon_case_line (kebab_case_to_camel_case p.1)) ∧
      ((sortIcons icons).map (fun p => pyLowerStr p.1)).Pairwise
        (fun a b => strLeb a b = true)) := by
  constructor
  · intro colors checkOnly rls acts hnd hl
    have hsorted : (sortPairs colors).Pairwise (fun a b => pairLeb a b = true) :=
      sortPy_pairwise pairLeb pairLeb_trans pairLeb_total colors
    have hperm : ((sortPairs colors).map Prod.fst).Perm (colors.map Prod.fst) :=
      (sortPy_perm pairLeb colors).map Prod.fst
    have hnd' : ((sortPairs colors).map Prod.fst).Nodup := hperm.symm.nodup hnd
    have hne : (sortPairs colors).Pairwise (fun a b => a.1 ≠ b.1) :=
      List.pairwise_map.mp hnd'
    have hlt : (sortPairs colors).Pairwise (fun a b => strLtb a.1 b.1 = true) :=
      (hsorted.and hne).imp (fun hab => pairLeb_key_lt hab.1 hab.2)
    have hltmap : ((sortPairs colors).map Prod.fst).Pairwise
        (fun a b => strLtb a b = true) := List.pairwise_map.mpr hlt
    exact List.Pairwise.sublist (colorLoopAux_keys_sublist hl) hltmap
  · intro icons
    refine ⟨rfl, ?_⟩
    have hsorted : (sortIcons icons).Pairwise (fun a b => iconLeb a b = true) :=
      sortPy_pairwise iconLeb iconLeb_trans iconLeb_total icons
    exact List.pairwise_map.mpr (hsorted.imp (fun h => h))

/-- C2 (amended), witness: the two-entry color input yields entry lines in
strictly ascending original-key order. -/
theorem generated_lines_sorted_by_code_key_witness :
    (entryKeys demoSortRls).Pairwise (fun a b => strLtb a b = true) :=
  generated_lines_sorted_by_code_key.1 demoColors2 true demoSortRls [] (by decide)
    (by rfl)

theorem illustrationsLoop_props : ∀ {oracle : String → Except String Unit}
    {names : List String} {log : List String} {acts : List IllAction} {cls : List String},
    illustrationsLoop oracle names = .ok (log, acts, cls) →
    cls.length = names.length ∧
      ∀ n e, n ∈ names → oracle n = .error e → ("❗️" ++ e) ∈ log := by
  intro oracle names
  induction names with
  | nil =>
    intro log acts cls h
    cases h
    exact ⟨rfl, by simp⟩
  | cons name rest ih =>
    intro log acts cls h
    simp only [illustrationsLoop] at h
    cases hd : name.data with
    | nil => rw [hd] at h; cases h
    | cons c cs =>
      rw [hd] at h
      cases hr : illustrationsLoop oracle rest with
      | error e => rw [hr] at h; cases h
      | ok t =>
        obtain ⟨log', acts', cls'⟩ := t
        rw [hr] at h
        cases h
        obtain ⟨ihlen, ihmem⟩ := ih hr
        refine ⟨by simp [ihlen], ?_⟩
        intro n e hn he
        rcases List.mem_cons.mp hn with hn | hn
        · subst hn
          simp only [download_and_resize, he]
          simp
        · exact List.mem_append_right _ (ihmem n e hn he)

theorem illustrationsLoop_caseLine_mem : ∀ {oracle : String → Except String Unit}
    {names : List String} {log : List String} {acts : List IllAction} {cls : List String},
    illustrationsLoop oracle names = .ok (log, acts, cls) →
    ∀ n ∈ names, ∃ c cs, n.data = c :: cs ∧
      ("        case " ++ String.mk (Char.toLower c :: cs)) ∈ cls := by
  intro oracle names
  induction names with
  | nil =>
    intro log acts cls h n hn
    simp at hn
  | cons name rest ih =>
    intro log acts cls h n hn
    simp only [illustrationsLoop] at h
    cases hd : name.data with
    | nil => rw [hd] at h; cases h
    | cons c cs =>
      rw [hd] at h
      cases hr : illustrationsLoop oracle rest with
      | error e => rw [hr] at h; cases h
      | ok t =>
        obtain ⟨log', acts', cls'⟩ := t
        rw [hr] at h
        cases h
        rcases List.mem_cons.mp hn with hn | hn
        · subst hn
          exact ⟨c, cs, hd, by simp⟩
        · obtain ⟨c', cs', hd', hm⟩ := ih hr n hn
          exact ⟨c', cs', hd', List.mem_cons_of_mem _ hm⟩

theorem illustrationsLoop_caseLines_indep : ∀ (o₁ o₂ : String → Except String Unit)
    (names : List String),
    (illustrationsLoop o₁ names).map (fun t => t.2.2)
      = (illustrationsLoop o₂ names).map (fun t => t.2.2) := by
  intro o₁ o₂ names
  induction names with
  | nil => rfl
  | cons name rest ih =>
    simp only [illustrationsLoop]
    cases hd : name.data with
    | nil => rfl
    | cons c cs =>
      cases h₁ : illustrationsLoop o₁ rest with
      | error e =>
        cases h₂ : illustrationsLoop o₂ rest with
        | error e' =>
          rw [h₁, h₂] at ih
          simp only [Except.map] at ih
          cases ih
          rfl
        | ok t => rw [h₁, h₂] at ih; simp [Except.map] at ih
      | ok t =>
        obtain ⟨log₁, acts₁, cls₁⟩ := t
        cases h₂ : illustrationsLoop o₂ rest with
        | error e' => rw [h₁, h₂] at ih; simp [Except.map] at ih
        | ok t' =>
          obtain ⟨log₂, acts₂, cls₂⟩ := t'
          rw [h₁, h₂] at ih
          simp only [Except.map, Except.ok.injEq] at ih
          simp [Except.map, ih]

/-- C7: a failed download/resize of one illustration (the oracle's error) is
caught and logged as `❗️{e}` on standard output, and every illustration in
the discovered list — including all subsequent ones — still gets its case
line: the batch is never aborted by a single-item fetch failure. -/
theorem illustration_failure_logged_and_batch_continues :
    ∀ (oracle : String → Except String Unit) (srcLines : List String) (n e : String)
      (r : IllRun),
      n ∈ discoverNames srcLines → oracle n = .error e →
      illustrationsRun oracle srcLines = .ok r →
      ("❗️" ++ e) ∈ r.log ∧ r.caseLines.length = (discoverNames srcLines).length := by
  intro oracle srcLines n e r hn he hr
  simp only [illustrationsRun] at hr
  cases hl : illustrationsLoop oracle (discoverNames srcLines) with
  | error e' => rw [hl] at hr; cases hr
  | ok t =>
    obtain ⟨log, acts, cls⟩ := t
    rw [hl] at hr
    cases hr
    obtain ⟨hlen, hmem⟩ := illustrationsLoop_props hl
    refine ⟨hmem n e hn he, ?_⟩
    simp only
    rw [(sortPy_perm strLeb cls).length_eq, hlen]

/-- C9: the generated `Illustrations.swift` content is a function of the
discovered illustration name list alone — it is identical across runs whose
download oracles differ arbitrarily (any subset of downloads failing), and
every discovered name contributes its case line. -/
theorem illustrations_enum_depends_only_on_names :
    ∀ (srcLines : List String) (o₁ o₂ : String → Except String Unit) (r₁ r₂ : IllRun),
      illustrationsRun o₁ srcLines = .ok r₁ →
      illustrationsRun o₂ srcLines = .ok r₂ →
      (r₁.enumContent = r₂.enumContent ∧
        ∀ n ∈ discoverNames srcLines, ∃ c cs, n.data = c :: cs ∧
          ("        case " ++ String.mk (Char.toLower c :: cs)) ∈ r₁.caseLines) := by
  intro srcLines o₁ o₂ r₁ r₂ h₁ h₂
  simp only [illustrationsRun] at h₁ h₂
  cases hl₁ : illustrationsLoop o₁ (discoverNames srcLines) with
  | error e => rw [hl₁] at h₁; cases h₁
  | ok t₁ =>
    obtain ⟨log₁, acts₁, cls₁⟩ := t₁
    rw [hl₁] at h₁
    cases h₁
    cases hl₂ : illustrationsLoop o₂ (discoverNames srcLines) with
    | error e => rw [hl₂] at h₂; cases h₂
    | ok t₂ =>
      obtain ⟨log₂, acts₂, cls₂⟩ := t₂
      rw [hl₂] at h₂
      cases h₂
      have hind := illustrationsLoop_caseLines_indep o₁ o₂ (discoverNames srcLines)
      rw [hl₁, hl₂] at hind
      simp only [Except.map, Except.ok.injEq] at hind
      constructor
      · simp only
        rw [hind]
      · intro n hn
        obtain ⟨c, cs, hd, hm⟩ := illustrationsLoop_caseLine_mem hl₁ n hn
        exact ⟨c, cs, hd, (sortPy_perm strLeb cls₁).mem_iff.mpr hm⟩

/-- C7, witness: the failed `Accommodation` download is logged and both
discovered illustrations still get case lines. -/
theorem illustration_failure_logged_witness :
    ("❗️" ++ "HTTP Error 404: Not Found") ∈ demoIllRunFail.log ∧
      demoIllRunFail.caseLines.length = (discoverNames demoIllLines).length :=
  illustration_failure_logged_and_batch_continues demoOracleFail demoIllLines
    "Accommodation" "HTTP Error 404: Not Found" demoIllRunFail (by decide) (by rfl)
    (by rfl)

/-- C9, witness: the all-success run and the one-failure run generate the
same `Illustrations.swift` content. -/
theorem illustrations_enum_depends_only_on_names_witness :
    demoIllRunOk.enumContent = demoIllRunFail.enumContent :=
  (illustrations_enum_depends_only_on_names demoIllLines demoOracleOk demoOracleFail
    demoIllRunOk demoIllRunFail (by rfl) (by rfl)).1
